import Mathlib

/-!
# Verification of the heading-navigator core

Shallow embedding of the heading-navigator plugin:

* `src/headingExtractor.ts` — heading extraction from markdown text.
  The third-party `@lezer/markdown` parser is external to the repository;
  its output is modelled as the preorder node sequence that `tree.iterate`
  visits (an `Except` value, since parsing may fail).  Facts the parser
  guarantees about that sequence (proper nesting of node spans, headings
  never nested inside headings) appear as explicit hypotheses.
* `src/contentScripts/ui/headingPanel.ts` — the panel state machine
  (`applyFilter`, `moveSelection`, `notifyPreview`, `open`, `update`),
  embedded as pure state-passing functions; DOM rendering is ignored,
  preview callbacks become explicit event values.
* `src/contentScripts/headingNavigator.ts` — `findActiveHeadingId` and the
  cancel-path viewport restore (`applyScrollTop` / `restoreScroll` /
  `restoreEditorViewport`), with DOM geometry passed in as data.

JS strings are modelled as Lean `String`/`List Char` (offsets agree on the
ASCII inputs used throughout); JS numbers used here are integers, modelled
as `Nat`/`Int`.
-/

/-! ## JS string primitives -/

/-- The whitespace class used by the JS `\s`, `trim()` and `split` logic:
space, tab, LF, VT, FF, CR and NBSP.  (Other Unicode space characters also
belong to JS `\s`; they do not occur in any input considered here.) -/
def isJsSpace (c : Char) : Bool :=
  c = ' ' || c = '\t' || c = '\n' || c = Char.ofNat 11 || c = Char.ofNat 12 ||
  c = '\r' || c = Char.ofNat 160

/-- `String.prototype.trim()`: strip `isJsSpace` characters from both ends. -/
def trimList (cs : List Char) : List Char :=
  ((cs.dropWhile isJsSpace).reverse.dropWhile isJsSpace).reverse

/-- `String.prototype.trim()` on `String`. -/
def jsTrim (s : String) : String :=
  (trimList s.toList).asString

/-- `String.prototype.toLowerCase()` (ASCII range; the inputs considered here
contain no non-ASCII cased letters). -/
def jsToLower (s : String) : String :=
  (s.toList.map Char.toLower).asString

/-- Does `needle` occur as a contiguous substring of `hay`?
(`String.prototype.includes`.) -/
def listContains (needle : List Char) : List Char → Bool
  | [] => needle.isEmpty
  | c :: rest => needle.isPrefixOf (c :: rest) || listContains needle rest

/-- `hay.includes(needle)` for JS strings. -/
def jsIncludes (hay needle : String) : Bool :=
  listContains needle.toList hay.toList

/-- JS `Number(s)` for the suffixes of heading node names: leading/trailing
whitespace is ignored, the empty string is `0`, a run of decimal digits is its
value, and anything else (which only a name outside the markdown grammar could
carry) is `NaN`, modelled as `none`. -/
def jsNumberNat (s : String) : Option Nat :=
  let t := trimList s.toList
  if t.isEmpty then some 0
  else if t.all (fun c => c.isDigit) then
    some (t.foldl (fun acc c => acc * 10 + (c.toNat - 48)) 0)
  else none

/-- `content.slice(a, b)` for `0 ≤ a ≤ b` offsets (clamped to the length,
empty when `a ≥ b`), as the source uses it. -/
def jsSlice (s : String) (a b : Nat) : String :=
  ((s.toList.drop a).take (b - a)).asString

/-- `s.startsWith(pre)`, character-wise (equivalent to `String.startsWith`). -/
def strStartsWith (s pre : String) : Bool :=
  pre.toList.isPrefixOf s.toList

/-- Drop the first `n` characters of `s` (equivalent to `String.drop`). -/
def strDrop (s : String) (n : Nat) : String :=
  (s.toList.drop n).asString

/-! ## headingExtractor.ts — inline markup stripping

Each `.replace(regex, '$1')` pass of `stripInlineMarkdown` is a left-to-right
scan: at each position the (deterministic) pattern is tried; on a match the
captured group is emitted and scanning resumes after the match, otherwise one
character is emitted.  All the character classes involved exclude their own
closing delimiter, so the greedy/lazy quantifiers match exactly "up to the
first delimiter" and the scanners below are faithful to the regexes. -/

/-- Generic global-replace scan.  `fuel` bounds the recursion; every step
consumes at least one input character, so `length + 1` fuel always suffices. -/
def replaceScanGo (tryFn : List Char → Option (List Char × List Char)) :
    Nat → List Char → List Char
  | 0, cs => cs
  | _ + 1, [] => []
  | fuel + 1, c :: rest =>
    match tryFn (c :: rest) with
    | some (grp, rest') => grp ++ replaceScanGo tryFn fuel rest'
    | none => c :: replaceScanGo tryFn fuel rest

/-- Run a global-replace scan over a whole character list. -/
def replaceScan (tryFn : List Char → Option (List Char × List Char))
    (cs : List Char) : List Char :=
  replaceScanGo tryFn (cs.length + 1) cs

/-- Strip exactly `k` copies of `d` from the front. -/
def dropReps (d : Char) : Nat → List Char → Option (List Char)
  | 0, cs => some cs
  | _ + 1, [] => none
  | k + 1, c :: rest => if c = d then dropReps d k rest else none

/-- Matcher for the delimiter patterns `d^k([^d]+)d^k` (bold `**…**`,
`__…__`, emphasis `*…*`, `_…_`, inline code). -/
def tryDelim (d : Char) (k : Nat) (cs : List Char) :
    Option (List Char × List Char) :=
  match dropReps d k cs with
  | none => none
  | some cs1 =>
    let grp := cs1.takeWhile (fun c => c ≠ d)
    if grp.isEmpty then none
    else
      match dropReps d k (cs1.dropWhile (fun c => c ≠ d)) with
      | none => none
      | some rest => some (grp, rest)

/-- One `.replace(/d^k([^d]+)d^k/g, '$1')` pass. -/
def replaceDelim (d : Char) (k : Nat) (cs : List Char) : List Char :=
  replaceScan (tryDelim d k) cs

/-- Matcher for inline images `!\[([^\]]*)\]\([^)]+\)` (keep alt text). -/
def tryImage : List Char → Option (List Char × List Char)
  | '!' :: '[' :: rest =>
    let grp := rest.takeWhile (fun c => c ≠ ']')
    match rest.dropWhile (fun c => c ≠ ']') with
    | ']' :: '(' :: rest2 =>
      let inner := rest2.takeWhile (fun c => c ≠ ')')
      if inner.isEmpty then none
      else
        match rest2.dropWhile (fun c => c ≠ ')') with
        | ')' :: rest3 => some (grp, rest3)
        | _ => none
    | _ => none
  | _ => none

/-- Matcher for links `\[([^\]]*?)\]\s*(\([^)]+\)|\[[^\]]*\])` (keep label). -/
def tryLink : List Char → Option (List Char × List Char)
  | '[' :: rest =>
    let grp := rest.takeWhile (fun c => c ≠ ']')
    match rest.dropWhile (fun c => c ≠ ']') with
    | ']' :: rest2 =>
      match rest2.dropWhile isJsSpace with
      | '(' :: rest4 =>
        let inner := rest4.takeWhile (fun c => c ≠ ')')
        if inner.isEmpty then none
        else
          match rest4.dropWhile (fun c => c ≠ ')') with
          | ')' :: rest5 => some (grp, rest5)
          | _ => none
      | '[' :: rest4 =>
        match rest4.dropWhile (fun c => c ≠ ']') with
        | ']' :: rest5 => some (grp, rest5)
        | _ => none
      | _ => none
    | _ => none
  | _ => none

/-- The characters a backslash may escape:
`\\([\\`*_{}\[\]()#+\-.!])` (backtick, braces given by code point). -/
def escapables : List Char :=
  ['\\', Char.ofNat 96, '*', '_', Char.ofNat 123, Char.ofNat 125,
   '[', ']', '(', ')', '#', '+', '-', '.', '!']

/-- The escaped-characters pass `.replace(/\\([...])/g, '$1')`. -/
def replaceEscapes : List Char → List Char
  | [] => []
  | '\\' :: c :: rest =>
    if escapables.contains c then c :: replaceEscapes rest
    else '\\' :: replaceEscapes (c :: rest)
  | c :: rest => c :: replaceEscapes rest

/-- The whitespace-collapse pass `.replace(/\s+/g, ' ')`; the flag tracks
whether the previous character was part of a whitespace run. -/
def collapseWsGo : Bool → List Char → List Char
  | _, [] => []
  | prevSpace, c :: rest =>
    if isJsSpace c then
      (if prevSpace then [] else [' ']) ++ collapseWsGo true rest
    else c :: collapseWsGo false rest

/-- `.replace(/\s+/g, ' ')`. -/
def collapseWs (cs : List Char) : List Char :=
  collapseWsGo false cs

/-- `stripInlineMarkdown` (headingExtractor.ts:21): the nine replacement
passes, in source order, followed by `trim()`. -/
def stripInlineMarkdown (text : String) : String :=
  let cs1 := replaceScan tryImage text.toList
  let cs2 := replaceScan tryLink cs1
  let cs3 := replaceDelim '*' 2 cs2
  let cs4 := replaceDelim '_' 2 cs3
  let cs5 := replaceDelim '*' 1 cs4
  let cs6 := replaceDelim '_' 1 cs5
  let cs7 := replaceDelim (Char.ofNat 96) 1 cs6
  let cs8 := replaceEscapes cs7
  let cs9 := collapseWs cs8
  (trimList cs9).asString

/-! ### ATX marker stripping -/

/-- `raw.replace(/^#{1,6}[ \t]*/, '')`: if the text starts with a marker
character, drop up to six of them and the following spaces/tabs. -/
def atxStartStrip (cs : List Char) : List Char :=
  match cs with
  | '#' :: _ =>
    let hashes := cs.takeWhile (fun c => c = '#')
    ((cs.drop (min hashes.length 6)).dropWhile (fun c => c = ' ' || c = '\t'))
  | _ => cs

/-- Acceptor for `\s*` (state C of the tail pattern). -/
def tailC : List Char → Bool
  | [] => true
  | c :: rest => isJsSpace c && tailC rest

/-- Acceptor for `#*\s*` (state B of the tail pattern). -/
def tailB : List Char → Bool
  | [] => true
  | c :: rest =>
    if c = '#' then tailB rest
    else if isJsSpace c then tailC rest
    else false

/-- Acceptor for the full tail pattern `[ \t]*#{0,}\s*`. -/
def tailA : List Char → Bool
  | [] => true
  | c :: rest =>
    if c = ' ' || c = '\t' then tailA rest
    else if c = '#' then tailB rest
    else if isJsSpace c then tailC rest
    else false

/-- `raw.replace(/[ \t]*#{0,}\s*$/, '')`: since the pattern is anchored at the
end, the leftmost match is the longest suffix accepted by `tailA`; drop it. -/
def atxEndStrip : List Char → List Char
  | [] => []
  | c :: rest => if tailA (c :: rest) then [] else c :: atxEndStrip rest

/-- `normalizeHeadingText` (headingExtractor.ts:43). -/
def normalizeHeadingText (nodeName : String) (raw : String) : String :=
  if strStartsWith nodeName "ATXHeading" then
    stripInlineMarkdown (trimList (atxEndStrip (atxStartStrip raw.toList))).asString
  else if strStartsWith nodeName "SetextHeading" then
    -- raw.split('\n')[0] is the segment before the first newline; split never
    -- yields an empty array, so the `?? ''` fallback is dead.
    stripInlineMarkdown (trimList (raw.toList.takeWhile (fun c => c ≠ '\n'))).asString
  else
    stripInlineMarkdown (trimList raw.toList).asString

/-! ## headingExtractor.ts — levels, lines, extraction -/

/-- `parseHeadingLevel` (headingExtractor.ts:5).  `name.replace('ATXHeading',
'')` removes the first occurrence of the pattern, which for a name with that
prefix is the prefix itself, hence `drop`. -/
def parseHeadingLevel (nodeName : String) : Option Nat :=
  if strStartsWith nodeName "ATXHeading" then
    jsNumberNat (strDrop nodeName 10)
  else if strStartsWith nodeName "SetextHeading" then
    match jsNumberNat (strDrop nodeName 13) with
    | some 1 => some 1
    | some 2 => some 2
    | _ => none
  else none

/-- Offsets of line starts: `0`, plus `index + 1` for every newline
(`createLineResolver`, headingExtractor.ts:61). -/
def lineStartsGo : List Char → Nat → List Nat
  | [], _ => []
  | c :: rest, i =>
    if c = '\n' then (i + 1) :: lineStartsGo rest (i + 1)
    else lineStartsGo rest (i + 1)

/-- `lineStartIndices` of `createLineResolver`. -/
def lineStartIndices (content : String) : List Nat :=
  0 :: lineStartsGo content.toList 0

/-- The binary-search loop of the line resolver: greatest index whose line
start is `≤ position`, defaulting to `0`.  `fuel` bounds the loop; the search
interval shrinks every iteration, so `length + 1` fuel always suffices. -/
def bsearchGo (arr : List Nat) (position : Nat) :
    Nat → Int → Int → Nat → Nat
  | 0, _, _, result => result
  | fuel + 1, low, high, result =>
    if low ≤ high then
      let mid := (low + high) / 2
      if arr.getD mid.toNat 0 ≤ position then
        bsearchGo arr position fuel (mid + 1) high mid.toNat
      else
        bsearchGo arr position fuel low (mid - 1) result
    else result

/-- The resolver returned by `createLineResolver`. -/
def resolveLineNumber (content : String) (position : Nat) : Nat :=
  let arr := lineStartIndices content
  bsearchGo arr position (arr.length + 1) 0 ((arr.length : Int) - 1) 0

/-- `HeadingItem` (types.ts).  `from`/`to` are Lean keywords, hence
`fromPos`/`toPos`. -/
structure HeadingItem where
  id : String
  text : String
  level : Nat
  fromPos : Nat
  toPos : Nat
  line : Nat
deriving Repr, DecidableEq

/-- A node as seen by the `tree.iterate` callback: its type name and span. -/
structure PNode where
  name : String
  fromPos : Nat
  toPos : Nat
deriving Repr, DecidableEq

/-- The body of the `enter` callback of `extractHeadings`: classify the node,
slice and normalize its span, and build an entry unless the text is empty. -/
def headingOf (content : String) (n : PNode) : Option HeadingItem :=
  match parseHeadingLevel n.name with
  | none => none
  | some level =>
    let text := normalizeHeadingText n.name (jsSlice content n.fromPos n.toPos)
    if text = "" then none
    else
      some { id := "heading-" ++ toString n.fromPos
             text := text
             level := level
             fromPos := n.fromPos
             toPos := n.toPos
             line := resolveLineNumber content n.fromPos }

/-- `extractHeadings` (headingExtractor.ts:89).  `parser.parse` is external;
its outcome is passed in as either a failure (the `catch` branch: the error is
logged and `[]` returned) or the preorder node sequence that `tree.iterate`
visits (the `enter` callback never skips subtrees, so iteration is a full
preorder walk and the pushes are a `filterMap` over it). -/
def extractHeadings (content : String) (parsed : Except String (List PNode)) :
    List HeadingItem :=
  match parsed with
  | .error _ => []
  | .ok nodes => nodes.filterMap (headingOf content)

/-! ## The parse tree behind the node sequence

The node sequence C1 quantifies over is the preorder enumeration of a lezer
parse tree.  The tree itself, its well-formedness, and the proof that the
preorder enumeration of a well-formed tree satisfies `containsOrPrecedes`
pairwise (C1's geometric hypothesis) are below; the heading-disjointness
hypothesis is the markdown-grammar fact that heading nodes never contain
other heading nodes. -/

/-- A parse tree node with its children, as lezer produces it. -/
inductive PTree where
  | node : PNode → List PTree → PTree

/-- The root node of a parse tree. -/
def PTree.root : PTree → PNode
  | .node d _ => d

mutual
/-- The preorder node sequence `tree.iterate` visits. -/
def PTree.flatten : PTree → List PNode
  | .node d cs => d :: flattenForest cs

/-- Preorder enumeration of a forest, left to right. -/
def flattenForest : List PTree → List PNode
  | [] => []
  | t :: ts => t.flatten ++ flattenForest ts
end

/-- Well-formedness of a lezer tree: each node's span is ordered, children
lie within their parent's span, siblings are ordered left to right, and all
subtrees are well-formed. -/
inductive PTree.Wf : PTree → Prop
  | node {d : PNode} {cs : List PTree}
      (hspan : d.fromPos ≤ d.toPos)
      (hbound : ∀ c ∈ cs, d.fromPos ≤ (PTree.root c).fromPos ∧
        (PTree.root c).toPos ≤ d.toPos)
      (hsib : List.Pairwise
        (fun a b => (PTree.root a).toPos ≤ (PTree.root b).fromPos) cs)
      (hch : ∀ c ∈ cs, PTree.Wf c) :
      PTree.Wf (.node d cs)

/-! ## headingPanel.ts — the panel state machine

The DOM fields of `HeadingPanel` (container, input element, list element) are
presentation only; the logic state is the five fields below, with the filter
input's `value` kept as `inputValue`.  Preview callbacks (`onPreview`) become
the second component of each step's result. -/

/-- The logic state of `HeadingPanel`. -/
structure PanelState where
  headings : List HeadingItem
  filtered : List HeadingItem
  inputValue : String
  selectedHeadingId : Option String
  lastPreviewedId : Option String
deriving Repr, DecidableEq

/-- JS truthiness of a `string | null` value: `null` and `""` are falsy. -/
def strTruthy : Option String → Bool
  | none => false
  | some s => s ≠ ""

/-- `heading.id === this.selectedHeadingId` where the right side may be
`null` (strict equality with `null` is false for every string). -/
def jsStrEqOpt (a : String) (b : Option String) : Bool :=
  match b with
  | some s => a = s
  | none => false

/-- `x ?? y` for `string | null` values (`""` is not nullish). -/
def jsCoalesce (a b : Option String) : Option String :=
  match a with
  | some x => some x
  | none => b

/-- `applyFilter` (headingPanel.ts:163): recompute `filtered` and reselect.
(`render()` has no logic-state effect.) -/
def applyFilterStep (s : PanelState) (filterText : String) : PanelState :=
  let normalized := jsToLower (jsTrim filterText)
  let filtered :=
    if normalized = "" then s.headings
    else s.headings.filter (fun h => jsIncludes (jsToLower h.text) normalized)
  match filtered with
  | [] => { s with filtered := [], selectedHeadingId := none }
  | first :: _ =>
    if strTruthy s.selectedHeadingId then
      match filtered.find? (fun h => jsStrEqOpt h.id s.selectedHeadingId) with
      | some _ => { s with filtered := filtered }
      | none => { s with filtered := filtered, selectedHeadingId := some first.id }
    else { s with filtered := filtered, selectedHeadingId := some first.id }

/-- `notifyPreview` (headingPanel.ts:185); the second component is the
`onPreview` event, if fired. -/
def notifyPreviewStep (s : PanelState) : PanelState × Option HeadingItem :=
  if strTruthy s.selectedHeadingId then
    if s.selectedHeadingId = s.lastPreviewedId then (s, none)
    else
      match s.headings.find? (fun h => jsStrEqOpt h.id s.selectedHeadingId) with
      | none => ({ s with lastPreviewedId := none }, none)
      | some heading => ({ s with lastPreviewedId := some heading.id }, some heading)
  else ({ s with lastPreviewedId := none }, none)

/-- `updatePreviewMarker` (headingPanel.ts:205): sync `lastPreviewedId`
without firing a preview. -/
def updatePreviewMarkerStep (s : PanelState) : PanelState :=
  if strTruthy s.selectedHeadingId then
    let heading := s.headings.find? (fun h => jsStrEqOpt h.id s.selectedHeadingId)
    { s with lastPreviewedId := heading.map (fun h => h.id) }
  else { s with lastPreviewedId := none }

/-- `setHeadings` (headingPanel.ts:153). -/
def setHeadingsStep (s : PanelState) (headings : List HeadingItem)
    (filterText : String) (emitPreview : Bool) : PanelState × Option HeadingItem :=
  let s1 := applyFilterStep { s with headings := headings } filterText
  if emitPreview then notifyPreviewStep s1
  else (updatePreviewMarkerStep s1, none)

/-- `open` (headingPanel.ts:98); panel mounting/focus is presentation only. -/
def openStep (s : PanelState) (headings : List HeadingItem)
    (selectedId : Option String) : PanelState × Option HeadingItem :=
  let s1 := { s with inputValue := ""
                     selectedHeadingId := selectedId
                     lastPreviewedId := none }
  setHeadingsStep s1 headings "" true

/-- `update` (headingPanel.ts:111). -/
def updateStep (s : PanelState) (headings : List HeadingItem)
    (selectedId : Option String) (preserveFilter : Bool) :
    PanelState × Option HeadingItem :=
  let filterText := if preserveFilter then s.inputValue else ""
  let s1 := if preserveFilter then s else { s with inputValue := "" }
  let s2 := { s1 with selectedHeadingId := jsCoalesce selectedId s1.selectedHeadingId }
  setHeadingsStep s2 headings filterText false

/-- `Array.prototype.findIndex`: index of the first match, `-1` if none. -/
def jsFindIndex (p : HeadingItem → Bool) (l : List HeadingItem) : Int :=
  match l.findIdx? p with
  | some i => (i : Int)
  | none => -1

/-- `moveSelection` (headingPanel.ts:242).  `findIndex` yields `-1` when the
selected id is absent; the next index uses the JS `%` operator (truncated
division, so a negative left operand yields a negative result), and
`this.filtered[nextIndex].id` throws a `TypeError` when `nextIndex` is out of
range — the outer `none` models that uncaught throw. -/
def moveSelectionStep (s : PanelState) (delta : Int) :
    Option (PanelState × Option HeadingItem) :=
  if s.filtered.length = 0 then some ({ s with selectedHeadingId := none }, none)
  else
    let len : Int := (s.filtered.length : Int)
    let currentIndex : Int :=
      jsFindIndex (fun h => jsStrEqOpt h.id s.selectedHeadingId) s.filtered
    let nextIndex : Int :=
      if 0 ≤ currentIndex then Int.tmod (currentIndex + delta + len) len else 0
    if nextIndex < 0 then none
    else
      match s.filtered.get? nextIndex.toNat with
      | none => none
      | some target =>
        some (notifyPreviewStep { s with selectedHeadingId := some target.id })

/-! ## headingNavigator.ts — active heading and viewport restore -/

/-- The scan loop of `findActiveHeadingId` (headingNavigator.ts:374): keep the
last heading with `from ≤ position`, stopping at the first one beyond it. -/
def faScan (position : Nat) : List HeadingItem → Option HeadingItem → Option HeadingItem
  | [], cand => cand
  | h :: rest, cand =>
    if h.fromPos ≤ position then faScan position rest (some h) else cand

/-- `findActiveHeadingId` (headingNavigator.ts:374). -/
def findActiveHeadingId (headings : List HeadingItem) (position : Nat) :
    Option String :=
  match headings with
  | [] => none
  | first :: _ =>
    match faScan position headings none with
    | some candidate => some candidate.id
    | none => some first.id

/-- Scroll-container geometry read from the DOM (`scrollHeight`,
`clientHeight`, `scrollTop`). -/
structure ScrollGeom where
  scrollHeight : Int
  clientHeight : Int
  scrollTop : Int
deriving Repr, DecidableEq

/-- `applyScrollTop` (headingNavigator.ts:200): the scroll top actually set,
clamped to `[0, max 0 (scrollHeight - clientHeight)]`. -/
def applyScrollTop (g : ScrollGeom) (desiredTop : Int) : Int :=
  let maxScrollTop := max 0 (g.scrollHeight - g.clientHeight)
  max 0 (min desiredTop maxScrollTop)

/-- `restoreScroll` (headingNavigator.ts:211): the scroll top applied, if any. -/
def restoreScroll (g : ScrollGeom) (targetTop fallbackTop : Option Int) :
    Option Int :=
  match targetTop with
  | some t => some (applyScrollTop g t)
  | none =>
    match fallbackTop with
    | some f => some (applyScrollTop g f)
    | none => none

/-- `ViewportSnapshot` (headingNavigator.ts:173). -/
structure ViewportSnapshot where
  selectionFrom : Int
  selectionTo : Int
  blockTopOffset : Int
  blockBottomOffset : Int
deriving Repr, DecidableEq

/-- The coordinates the measure phase reads: `coordsAtPos` rectangles for the
selection ends and the scroll container's bounding-rect top.  `none` at the
call site models an unmeasurable span (`getBoundingClientRect` yielding `NaN`
or `coordsAtPos` returning `null`). -/
structure BlockCoords where
  startTop : Int
  startBottom : Int
  endTop : Int
  endBottom : Int
  rectTop : Int
deriving Repr, DecidableEq

/-- The `read` phase of `restoreEditorViewport` (headingNavigator.ts:431):
recompute the scroll top that puts the snapshot's block back at its captured
offset, clamped to the valid range, or `none` when the selection no longer
matches or the geometry is unmeasurable.  (The `Number.isFinite` guard cannot
fail in this integer model.) -/
def restoreReadTarget (snapshot : ViewportSnapshot) (liveFrom liveTo : Int)
    (coords : Option BlockCoords) (g : ScrollGeom) : Option Int :=
  if liveFrom ≠ snapshot.selectionFrom ∨ liveTo ≠ snapshot.selectionTo then none
  else
    match coords with
    | none => none
    | some c =>
      let blockTop := min c.startTop c.endTop - c.rectTop
      let blockBottom := max c.startBottom c.endBottom - c.rectTop
      let absoluteTop := g.scrollTop + blockTop
      let absoluteBottom := g.scrollTop + blockBottom
      let desiredTop := absoluteTop - snapshot.blockTopOffset
      let desiredBottom := absoluteBottom - snapshot.blockBottomOffset
      let maxScrollTop := max 0 (g.scrollHeight - g.clientHeight)
      let targetTop := max 0 (min desiredTop maxScrollTop)
      some (if desiredBottom > targetTop + g.clientHeight then
              max 0 (min (desiredBottom - g.clientHeight) maxScrollTop)
            else targetTop)

/-- `restoreEditorViewport` (headingNavigator.ts:425): the scroll top applied
on the cancel path, if any. -/
def restoreEditorViewport (snapshot : Option ViewportSnapshot)
    (liveFrom liveTo : Int) (coords : Option BlockCoords) (g : ScrollGeom)
    (fallbackScrollTop : Option Int) : Option Int :=
  match snapshot with
  | some snap =>
    restoreScroll g (restoreReadTarget snap liveFrom liveTo coords g) fallbackScrollTop
  | none =>
    match fallbackScrollTop with
    | some f => restoreScroll g none (some f)
    | none => none

/-! ## Parser contract and spec-side definitions

`@lezer/markdown` guarantees that node spans nest properly, so in the preorder
sequence `tree.iterate` visits, an earlier node either contains a later one
(an ancestor) or ends before it starts; and in the markdown grammar a heading
node never contains another heading node.  The two relations below state those
facts about a node sequence; C1's theorem takes them as hypotheses. -/

/-- An earlier preorder node either contains a later one or precedes it. -/
def containsOrPrecedes (u v : PNode) : Prop :=
  (u.fromPos ≤ v.fromPos ∧ v.toPos ≤ u.toPos) ∨ u.toPos ≤ v.fromPos

instance : DecidableRel containsOrPrecedes := fun u v => by
  unfold containsOrPrecedes; infer_instance

/-- No heading node contains a later heading node (headings never nest inside
headings in the markdown grammar). -/
def headingsNotNested (nodes : List PNode) : Prop :=
  List.Pairwise
    (fun u v => parseHeadingLevel u.name ≠ none → parseHeadingLevel v.name ≠ none →
      ¬(u.fromPos ≤ v.fromPos ∧ v.toPos ≤ u.toPos))
    nodes

instance (nodes : List PNode) : Decidable (headingsNotNested nodes) := by
  unfold headingsNotNested; infer_instance

/-- The heading node names the markdown grammar can actually produce for the
ATX form. -/
def grammarAtxNames : List String :=
  ["ATXHeading1", "ATXHeading2", "ATXHeading3",
   "ATXHeading4", "ATXHeading5", "ATXHeading6"]

/-- Modelled from the spec, for comparison with `applyFilterStep`: C3's
literal matching rule — an empty or whitespace-only filter keeps everything,
otherwise keep exactly the entries whose text contains the (untrimmed) filter
text case-insensitively. -/
def specFilterLiteral (headings : List HeadingItem) (filterText : String) :
    List HeadingItem :=
  if jsTrim filterText = "" then headings
  else headings.filter (fun h => jsIncludes (jsToLower h.text) (jsToLower filterText))

/-- Modelled from the spec, as amended: matching is against the trimmed
filter text. -/
def specFilterTrimmed (headings : List HeadingItem) (filterText : String) :
    List HeadingItem :=
  if jsTrim filterText = "" then headings
  else headings.filter
    (fun h => jsIncludes (jsToLower h.text) (jsToLower (jsTrim filterText)))

/-- Modelled from the spec: C3's reselection policy — none on an empty
filtered result; else keep the previous selected id when it occurs among the
filtered entries; else the first filtered entry's id. -/
def specReselect (filtered : List HeadingItem) (prev : Option String) :
    Option String :=
  match filtered with
  | [] => none
  | first :: _ =>
    match prev with
    | some pid => if filtered.any (fun h => h.id = pid) then some pid else some first.id
    | none => some first.id

/-! ## Lemmas about the extractor -/

theorem normalizeHeadingText_empty (nodeName : String) :
    normalizeHeadingText nodeName "" = "" := by
  unfold normalizeHeadingText
  split
  · rfl
  · split <;> rfl

theorem jsSlice_eq_empty {s : String} {a b : Nat} (h : b ≤ a) :
    jsSlice s a b = "" := by
  unfold jsSlice
  rw [Nat.sub_eq_zero_of_le h]
  rfl

theorem headingOf_spec {content : String} {n : PNode} {h : HeadingItem}
    (hh : headingOf content n = some h) :
    parseHeadingLevel n.name = some h.level ∧
    h.text = normalizeHeadingText n.name (jsSlice content n.fromPos n.toPos) ∧
    h.text ≠ "" ∧ h.fromPos = n.fromPos ∧ h.toPos = n.toPos := by
  unfold headingOf at hh
  cases hl : parseHeadingLevel n.name with
  | none => rw [hl] at hh; cases hh
  | some level =>
    rw [hl] at hh
    simp only at hh
    split at hh
    · cases hh
    · rename_i hne
      cases hh
      exact ⟨rfl, rfl, hne, rfl, rfl⟩

theorem headingOf_fromPos_lt_toPos {content : String} {n : PNode} {h : HeadingItem}
    (hh : headingOf content n = some h) : n.fromPos < n.toPos := by
  by_contra hle
  push_neg at hle
  obtain ⟨-, htext, hne, -, -⟩ := headingOf_spec hh
  rw [jsSlice_eq_empty hle, normalizeHeadingText_empty] at htext
  exact hne htext

/-- C1: for every input text (and every parse outcome satisfying the parser's
tree contract), the list returned by `extractHeadings` is strictly ordered by
ascending `from`, and every entry satisfies `from < to`. -/
theorem extractHeadings_strictly_ordered (content : String)
    (parsed : Except String (List PNode))
    (hcontract : ∀ nodes, parsed = .ok nodes →
      List.Pairwise containsOrPrecedes nodes ∧ headingsNotNested nodes) :
    List.Pairwise (fun a b => a.fromPos < b.fromPos)
      (extractHeadings content parsed) ∧
    ∀ h ∈ extractHeadings content parsed, h.fromPos < h.toPos := by
  cases parsed with
  | error e => exact ⟨List.Pairwise.nil, by intro h hm; cases hm⟩
  | ok nodes =>
    obtain ⟨hcop, hnn⟩ := hcontract nodes rfl
    constructor
    · show List.Pairwise _ (nodes.filterMap (headingOf content))
      rw [List.pairwise_filterMap]
      refine (hcop.and hnn).imp ?_
      rintro u v ⟨hcopuv, hnnuv⟩ b hb b' hb'
      rw [Option.mem_def] at hb hb'
      obtain ⟨hlv, -, -, hbf, hbt⟩ := headingOf_spec hb
      obtain ⟨hlv', -, -, hbf', hbt'⟩ := headingOf_spec hb'
      have hlt : u.fromPos < u.toPos := headingOf_fromPos_lt_toPos hb
      have hprec : u.toPos ≤ v.fromPos := by
        rcases hcopuv with hcont | hprec
        · exact absurd hcont (hnnuv (by simp [hlv]) (by simp [hlv']))
        · exact hprec
      omega
    · intro h hm
      rw [show extractHeadings content (.ok nodes) = nodes.filterMap (headingOf content) from rfl,
          List.mem_filterMap] at hm
      obtain ⟨n, hn, hsome⟩ := hm
      obtain ⟨-, -, -, hf, ht⟩ := headingOf_spec hsome
      have := headingOf_fromPos_lt_toPos hsome
      omega

/-- Witness for C1 on a concrete document and parse tree. -/
theorem extractHeadings_strictly_ordered_witness :
    List.Pairwise (fun a b => a.fromPos < b.fromPos)
      (extractHeadings "# A\n## B"
        (.ok [⟨"Document", 0, 8⟩, ⟨"ATXHeading1", 0, 3⟩, ⟨"ATXHeading2", 4, 8⟩])) ∧
    ({ id := "heading-0", text := "A", level := 1, fromPos := 0, toPos := 3,
       line := 0 } : HeadingItem).fromPos < 3 :=
  have h := extractHeadings_strictly_ordered "# A\n## B"
    (.ok [⟨"Document", 0, 8⟩, ⟨"ATXHeading1", 0, 3⟩, ⟨"ATXHeading2", 4, 8⟩])
    (fun nodes hn => by
      injection hn with hn
      subst hn
      exact ⟨by decide, by decide⟩)
  ⟨h.1, h.2 _ (by decide)⟩

/-- C2: `extractHeadings` never throws: it is total in this embedding, and a
parse failure is caught and yields the empty list. -/
theorem extractHeadings_error_empty (content : String) (e : String) :
    extractHeadings content (Except.error e) = [] := rfl

set_option maxHeartbeats 1000000 in
/-- C6: every entry's text is the normalization (markup stripping, marker
removal, whitespace collapse, trim) of its source span, entries with empty
normalized text are discarded, and the inline-markup scenario from the spec
holds on its parse tree. -/
theorem extractHeadings_text_normalized :
    (∀ (content : String) (nodes : List PNode) (h : HeadingItem),
        h ∈ extractHeadings content (.ok nodes) →
        ∃ n, n ∈ nodes ∧ h.fromPos = n.fromPos ∧ h.toPos = n.toPos ∧
          h.text = normalizeHeadingText n.name (jsSlice content n.fromPos n.toPos) ∧
          h.text ≠ "") ∧
    extractHeadings "## Hello **world** and [link](http://x)"
        (.ok [⟨"Document", 0, 39⟩, ⟨"ATXHeading2", 0, 39⟩, ⟨"HeaderMark", 0, 2⟩,
              ⟨"StrongEmphasis", 9, 18⟩, ⟨"Link", 23, 39⟩]) =
      [{ id := "heading-0", text := "Hello world and link", level := 2,
         fromPos := 0, toPos := 39, line := 0 }] := by
  constructor
  · intro content nodes h hm
    rw [show extractHeadings content (.ok nodes) = nodes.filterMap (headingOf content)
          from rfl,
        List.mem_filterMap] at hm
    obtain ⟨n, hn, hsome⟩ := hm
    obtain ⟨-, htext, hne, hf, ht⟩ := headingOf_spec hsome
    exact ⟨n, hn, hf, ht, htext, hne⟩
  · decide

/-- Witness for C6's universal part at a concrete document. -/
theorem extractHeadings_text_normalized_witness :
    ∃ n, n ∈ [(⟨"ATXHeading1", 0, 3⟩ : PNode)] ∧
      ({ id := "heading-0", text := "A", level := 1, fromPos := 0, toPos := 3,
         line := 0 } : HeadingItem).fromPos = n.fromPos ∧
      ({ id := "heading-0", text := "A", level := 1, fromPos := 0, toPos := 3,
         line := 0 } : HeadingItem).toPos = n.toPos ∧
      ({ id := "heading-0", text := "A", level := 1, fromPos := 0, toPos := 3,
         line := 0 } : HeadingItem).text =
        normalizeHeadingText n.name (jsSlice "# A" n.fromPos n.toPos) ∧
      ({ id := "heading-0", text := "A", level := 1, fromPos := 0, toPos := 3,
         line := 0 } : HeadingItem).text ≠ "" :=
  extractHeadings_text_normalized.1 "# A" [⟨"ATXHeading1", 0, 3⟩] _ (by decide)

/-- C7 counterexample: the code does not ignore an ATX heading node whose
reported level exceeds 6 — a node named `ATXHeading7` parses to level 7 and
produces an entry with level 7. -/
theorem extractHeadings_level_seven_counterexample :
    parseHeadingLevel "ATXHeading7" = some 7 ∧
    (extractHeadings "####### x" (.ok [⟨"Document", 0, 9⟩, ⟨"ATXHeading7", 0, 9⟩])).map
        (fun h => h.level) = [7] := by decide

theorem parseHeadingLevel_setext {name : String} {l : Nat}
    (hna : strStartsWith name "ATXHeading" = false)
    (hl : parseHeadingLevel name = some l) : l = 1 ∨ l = 2 := by
  unfold parseHeadingLevel at hl
  rw [hna] at hl
  simp only [Bool.false_eq_true, if_false] at hl
  split at hl
  · split at hl
    · exact Or.inl (Option.some.inj hl).symm
    · exact Or.inr (Option.some.inj hl).symm
    · cases hl
  · cases hl

/-- C7 amended: every entry's level lies in 1..6 provided the tree's
ATX-style node names are those the markdown grammar can produce
(`ATXHeading1` … `ATXHeading6`); independently, any node name of the
Setext form can only parse to level 1 or 2 (others are ignored).  The
unamended claim fails because an `ATXHeading7` node would not be ignored. -/
theorem extractHeadings_levels (content : String) (nodes : List PNode)
    (hnames : ∀ n ∈ nodes, strStartsWith n.name "ATXHeading" = true →
        n.name ∈ grammarAtxNames) :
    (∀ h ∈ extractHeadings content (.ok nodes), 1 ≤ h.level ∧ h.level ≤ 6) ∧
    (∀ (name : String) (l : Nat), strStartsWith name "ATXHeading" = false →
        parseHeadingLevel name = some l → l = 1 ∨ l = 2) := by
  constructor
  · intro h hm
    rw [show extractHeadings content (.ok nodes) = nodes.filterMap (headingOf content)
          from rfl,
        List.mem_filterMap] at hm
    obtain ⟨n, hn, hsome⟩ := hm
    obtain ⟨hlv, -, -, -, -⟩ := headingOf_spec hsome
    by_cases hatx : strStartsWith n.name "ATXHeading" = true
    · have hmem := hnames n hn hatx
      simp only [grammarAtxNames, List.mem_cons, List.not_mem_nil, or_false] at hmem
      rcases hmem with he | he | he | he | he | he
      · rw [he, show parseHeadingLevel "ATXHeading1" = some 1 from by decide] at hlv
        injection hlv with h1; omega
      · rw [he, show parseHeadingLevel "ATXHeading2" = some 2 from by decide] at hlv
        injection hlv with h1; omega
      · rw [he, show parseHeadingLevel "ATXHeading3" = some 3 from by decide] at hlv
        injection hlv with h1; omega
      · rw [he, show parseHeadingLevel "ATXHeading4" = some 4 from by decide] at hlv
        injection hlv with h1; omega
      · rw [he, show parseHeadingLevel "ATXHeading5" = some 5 from by decide] at hlv
        injection hlv with h1; omega
      · rw [he, show parseHeadingLevel "ATXHeading6" = some 6 from by decide] at hlv
        injection hlv with h1; omega
    · rw [Bool.not_eq_true] at hatx
      rcases parseHeadingLevel_setext hatx hlv with h1 | h1 <;> omega
  · intro name l hna hl
    exact parseHeadingLevel_setext hna hl

/-- Witness for C7's amended claim at a concrete document. -/
theorem extractHeadings_levels_witness :
    1 ≤ ({ id := "heading-0", text := "A", level := 1, fromPos := 0, toPos := 3,
           line := 0 } : HeadingItem).level ∧
    ({ id := "heading-0", text := "A", level := 1, fromPos := 0, toPos := 3,
       line := 0 } : HeadingItem).level ≤ 6 :=
  (extractHeadings_levels "# A" [⟨"ATXHeading1", 0, 3⟩] (by decide)).1 _ (by decide)

/-! ## Lemmas about the panel -/

theorem asString_eq_empty {l : List Char} : l.asString = "" ↔ l = [] := by
  constructor
  · intro h
    have h2 := congrArg String.data h
    simpa [List.asString] using h2
  · rintro rfl
    rfl

theorem jsToLower_eq_empty {s : String} : jsToLower s = "" ↔ s = "" := by
  unfold jsToLower
  rw [asString_eq_empty, List.map_eq_nil_iff]
  cases s with
  | mk data =>
    constructor
    · intro h
      rw [show (String.mk data).toList = data from rfl] at h
      rw [h]
    · intro h
      rw [h]
      rfl

/-- C3 counterexample: the filter is trimmed before matching, so `"b "` keeps
an entry whose text is `"ab"` (and selects it), while the claim's literal
matching rule (substring test against the untrimmed filter) keeps nothing. -/
theorem applyFilter_counterexample :
    (applyFilterStep ⟨[⟨"heading-0", "ab", 1, 0, 2, 0⟩], [], "", none, none⟩ "b ").filtered
      = [⟨"heading-0", "ab", 1, 0, 2, 0⟩] ∧
    (applyFilterStep ⟨[⟨"heading-0", "ab", 1, 0, 2, 0⟩], [], "", none, none⟩ "b "
      ).selectedHeadingId = some "heading-0" ∧
    specFilterLiteral [⟨"heading-0", "ab", 1, 0, 2, 0⟩] "b " = [] := by decide

/-- What `applyFilter` computes, stated against the spec-side definitions:
the filtered list is the trimmed case-insensitive match, and the selection
follows the reselection policy (for a previous id that is not the falsy
empty string). -/
theorem applyFilterStep_characterization (s : PanelState) (filterText : String)
    (hprev : ∀ pid, s.selectedHeadingId = some pid → pid ≠ "") :
    (applyFilterStep s filterText).filtered = specFilterTrimmed s.headings filterText ∧
    (applyFilterStep s filterText).selectedHeadingId =
      specReselect (specFilterTrimmed s.headings filterText) s.selectedHeadingId := by
  have hfil : (if jsToLower (jsTrim filterText) = "" then s.headings
               else s.headings.filter
                 (fun h => jsIncludes (jsToLower h.text) (jsToLower (jsTrim filterText))))
              = specFilterTrimmed s.headings filterText := by
    unfold specFilterTrimmed
    by_cases ht : jsTrim filterText = ""
    · rw [if_pos (jsToLower_eq_empty.mpr ht), if_pos ht]
    · rw [if_neg fun hc => ht (jsToLower_eq_empty.mp hc), if_neg ht]
  simp only [applyFilterStep]
  rw [hfil]
  split
  next heq =>
    rw [heq]
    exact ⟨rfl, rfl⟩
  next first tail heq =>
    rw [heq]
    cases hsel : s.selectedHeadingId with
    | none =>
      rw [if_neg (by simp [strTruthy])]
      refine ⟨rfl, ?_⟩
      simp [specReselect]
    | some pid =>
      have hpid : pid ≠ "" := hprev pid hsel
      rw [if_pos (by simp [strTruthy, hpid])]
      cases hfind : (first :: tail).find? (fun h => jsStrEqOpt h.id (some pid)) with
      | some val =>
        have hvmem := List.mem_of_find?_eq_some hfind
        have hvid : val.id = pid := by simpa [jsStrEqOpt] using List.find?_some hfind
        have hany : (first :: tail).any (fun h => h.id = pid) = true := by
          rw [List.any_eq_true]
          exact ⟨val, hvmem, by simp [hvid]⟩
        refine ⟨rfl, ?_⟩
        show (some pid : Option String) = specReselect (first :: tail) (some pid)
        simp [specReselect, hany]
      | none =>
        have hnone := List.find?_eq_none.mp hfind
        have hany : (first :: tail).any (fun h => h.id = pid) = false := by
          rw [Bool.eq_false_iff, ne_eq, List.any_eq_true]
          rintro ⟨x, hx, hxe⟩
          exact hnone x hx (by simpa [jsStrEqOpt] using hxe)
        refine ⟨rfl, ?_⟩
        show some first.id = specReselect (first :: tail) (some pid)
        simp [specReselect, hany]

/-- C3 amended: filtering keeps exactly the entries whose text contains the
*trimmed* filter text case-insensitively (an empty or whitespace-only filter
keeps the full list), and the resulting selection obeys the stated policy:
none when the filtered result is empty, else the previous selected id (which
in this system is never the empty string) when it occurs among the filtered
entries, else the first filtered entry's id. -/
theorem applyFilter_spec (s : PanelState) (filterText : String)
    (hprev : ∀ pid, s.selectedHeadingId = some pid → pid ≠ "") :
    (applyFilterStep s filterText).filtered = specFilterTrimmed s.headings filterText ∧
    (applyFilterStep s filterText).selectedHeadingId =
      specReselect (specFilterTrimmed s.headings filterText) s.selectedHeadingId :=
  applyFilterStep_characterization s filterText hprev

/-- Witness for C3's amended claim: a padded, differently-cased filter on a
two-entry list with a stale previous selection. -/
theorem applyFilter_spec_witness :
    (applyFilterStep ⟨[⟨"heading-0", "Alpha", 1, 0, 7, 0⟩, ⟨"heading-8", "Beta", 2, 8, 14, 1⟩],
        [], "", some "heading-8", none⟩ " AL ").filtered
      = specFilterTrimmed
          [⟨"heading-0", "Alpha", 1, 0, 7, 0⟩, ⟨"heading-8", "Beta", 2, 8, 14, 1⟩] " AL " ∧
    (applyFilterStep ⟨[⟨"heading-0", "Alpha", 1, 0, 7, 0⟩, ⟨"heading-8", "Beta", 2, 8, 14, 1⟩],
        [], "", some "heading-8", none⟩ " AL ").selectedHeadingId
      = specReselect
          (specFilterTrimmed
            [⟨"heading-0", "Alpha", 1, 0, 7, 0⟩, ⟨"heading-8", "Beta", 2, 8, 14, 1⟩] " AL ")
          (some "heading-8") :=
  applyFilter_spec _ " AL " (by intro pid hp; cases hp; decide)

theorem jsStrEqOpt_eq_true {a : String} {b : Option String}
    (h : jsStrEqOpt a b = true) : b = some a := by
  cases b with
  | none => simp [jsStrEqOpt] at h
  | some x =>
    simp only [jsStrEqOpt, decide_eq_true_eq] at h
    rw [h]

theorem notifyPreviewStep_selected (s : PanelState) :
    (notifyPreviewStep s).1.selectedHeadingId = s.selectedHeadingId := by
  unfold notifyPreviewStep
  split
  · split
    · rfl
    · split <;> rfl
  · rfl

theorem updatePreviewMarkerStep_filtered (s : PanelState) :
    (updatePreviewMarkerStep s).filtered = s.filtered := by
  unfold updatePreviewMarkerStep
  split <;> rfl

theorem updatePreviewMarkerStep_selected (s : PanelState) :
    (updatePreviewMarkerStep s).selectedHeadingId = s.selectedHeadingId := by
  unfold updatePreviewMarkerStep
  split <;> rfl

theorem specReselect_mem {filtered : List HeadingItem} {pid : String}
    (h : pid ∈ filtered.map (fun x => x.id)) :
    specReselect filtered (some pid) = some pid := by
  cases filtered with
  | nil => simp at h
  | cons f fs =>
    have hany : (f :: fs).any (fun x => x.id = pid) = true := by
      rw [List.any_eq_true]
      rw [List.mem_map] at h
      obtain ⟨x, hx, hxe⟩ := h
      exact ⟨x, hx, by simp [hxe]⟩
    simp [specReselect, hany]

/-- C4 counterexample: on a two-entry filtered list with current index 0 and
delta −3, the JS index expression `(0 - 3 + 2) % 2` is `-1` (JS `%` truncates
toward zero), so `this.filtered[-1].id` throws (modelled by `none`) — whereas
`(i + delta + n) mod n = 1` says the second entry would be selected. -/
theorem moveSelection_counterexample :
    moveSelectionStep ⟨[⟨"heading-0", "A", 1, 0, 3, 0⟩, ⟨"heading-4", "B", 1, 4, 8, 1⟩],
        [⟨"heading-0", "A", 1, 0, 3, 0⟩, ⟨"heading-4", "B", 1, 4, 8, 1⟩],
        "", some "heading-0", none⟩ (-3) = none ∧
    ((0 : Int) + (-3) + 2) % 2 = 1 ∧
    Int.tmod ((0 : Int) + (-3) + 2) 2 = -1 := by decide

theorem moveSelection_notify_aux (s : PanelState) (target : HeadingItem) :
    ∃ st ev,
      some (notifyPreviewStep { s with selectedHeadingId := some target.id }) = some (st, ev) ∧
      st.selectedHeadingId = some target.id := by
  refine ⟨(notifyPreviewStep { s with selectedHeadingId := some target.id }).1,
    (notifyPreviewStep { s with selectedHeadingId := some target.id }).2, rfl, ?_⟩
  rw [notifyPreviewStep_selected]

/-- C4 amended: on a non-empty filtered list, when the current selection is at
index `i` and `i + delta + n ≥ 0` (true in particular for delta = ±1, so the
selection wraps cyclically in both directions), `moveSelection` selects the
entry at index `(i + delta + n) mod n`; when no current selection exists, any
delta (in particular +1) lands on index 0.  For more negative deltas the JS
index expression is negative and the element access throws. -/
theorem moveSelection_wraps (s : PanelState) (delta : Int) :
    (∀ i : Nat,
        s.filtered.findIdx? (fun h => jsStrEqOpt h.id s.selectedHeadingId) = some i →
        0 ≤ (i : Int) + delta + (s.filtered.length : Int) →
        ∃ st ev, moveSelectionStep s delta = some (st, ev) ∧
          st.selectedHeadingId =
            (s.filtered.get?
              ((((i : Int) + delta + (s.filtered.length : Int)).toNat) % s.filtered.length)).map
              (fun h => h.id)) ∧
    (s.filtered ≠ [] →
      s.filtered.findIdx? (fun h => jsStrEqOpt h.id s.selectedHeadingId) = none →
      ∃ st ev, moveSelectionStep s delta = some (st, ev) ∧
        st.selectedHeadingId = s.filtered.head?.map (fun h => h.id)) := by
  constructor
  · intro i hidx hge
    have hne : s.filtered ≠ [] := by
      intro hc
      rw [hc] at hidx
      simp at hidx
    have hlen : 0 < s.filtered.length :=
      Nat.pos_of_ne_zero (fun hc => hne (List.eq_nil_of_length_eq_zero hc))
    have hji : jsFindIndex (fun h => jsStrEqOpt h.id s.selectedHeadingId) s.filtered
        = (i : Int) := by
      unfold jsFindIndex
      rw [hidx]
    have htm : Int.tmod ((i : Int) + delta + (s.filtered.length : Int))
          (s.filtered.length : Int)
        = (((((i : Int) + delta + (s.filtered.length : Int)).toNat) % s.filtered.length : Nat)
            : Int) := by
      rw [Int.tmod_eq_emod hge (Int.natCast_nonneg _)]
      conv_lhs => rw [← Int.toNat_of_nonneg hge]
      rw [← Int.ofNat_emod]
    have hmodlt : (((i : Int) + delta + (s.filtered.length : Int)).toNat) % s.filtered.length
        < s.filtered.length := Nat.mod_lt _ hlen
    have hget := List.get?_eq_get hmodlt
    obtain ⟨st, ev, h1, h2⟩ := moveSelection_notify_aux s (s.filtered.get ⟨_, hmodlt⟩)
    simp only [moveSelectionStep]
    rw [if_neg (Nat.pos_iff_ne_zero.mp hlen), hji,
        if_pos (Int.natCast_nonneg i), htm,
        if_neg (not_lt.mpr (Int.natCast_nonneg _)), Int.toNat_ofNat, hget]
    exact ⟨st, ev, h1, h2⟩
  · intro hne hidx
    have hlen : 0 < s.filtered.length :=
      Nat.pos_of_ne_zero (fun hc => hne (List.eq_nil_of_length_eq_zero hc))
    have hji : jsFindIndex (fun h => jsStrEqOpt h.id s.selectedHeadingId) s.filtered
        = -1 := by
      unfold jsFindIndex
      rw [hidx]
    have hget0 := List.get?_eq_get hlen
    obtain ⟨st, ev, h1, h2⟩ := moveSelection_notify_aux s (s.filtered.get ⟨0, hlen⟩)
    simp only [moveSelectionStep]
    rw [if_neg (Nat.pos_iff_ne_zero.mp hlen), hji,
        if_neg (by norm_num : ¬((0 : Int) ≤ -1)),
        if_neg (by norm_num : ¬((0 : Int) < 0)),
        show (0 : Int).toNat = 0 from rfl, hget0]
    refine ⟨st, ev, h1, ?_⟩
    rw [← List.get?_zero, hget0]
    exact h2

/-- Witness for C4's amended claim: a 3-entry list with the last entry
selected wraps to index 0 under delta +1. -/
theorem moveSelection_wraps_witness :
    (moveSelectionStep ⟨[⟨"heading-0", "A", 1, 0, 3, 0⟩, ⟨"heading-4", "B", 1, 4, 8, 1⟩,
          ⟨"heading-9", "C", 1, 9, 13, 2⟩],
        [⟨"heading-0", "A", 1, 0, 3, 0⟩, ⟨"heading-4", "B", 1, 4, 8, 1⟩,
          ⟨"heading-9", "C", 1, 9, 13, 2⟩],
        "", some "heading-9", none⟩ 1).map (fun p => p.1.selectedHeadingId)
      = some (some "heading-0") := by
  obtain ⟨st, ev, h1, h2⟩ :=
    (moveSelection_wraps ⟨[⟨"heading-0", "A", 1, 0, 3, 0⟩, ⟨"heading-4", "B", 1, 4, 8, 1⟩,
          ⟨"heading-9", "C", 1, 9, 13, 2⟩],
        [⟨"heading-0", "A", 1, 0, 3, 0⟩, ⟨"heading-4", "B", 1, 4, 8, 1⟩,
          ⟨"heading-9", "C", 1, 9, 13, 2⟩],
        "", some "heading-9", none⟩ 1).1 2 (by decide) (by decide)
  rw [h1]
  show some st.selectedHeadingId = some (some "heading-0")
  rw [h2]
  decide

/-- C5: a preview fires only when the newly selected id differs from
`lastPreviewedId` (and after firing `lastPreviewedId` equals the new id; when
selection is none, `lastPreviewedId` is cleared without firing); and the
open-then-update scenario fires exactly one preview, for A. -/
theorem notifyPreview_dedup :
    (∀ (s : PanelState) (h : HeadingItem), (notifyPreviewStep s).2 = some h →
        s.selectedHeadingId = some h.id ∧ s.lastPreviewedId ≠ some h.id ∧
        (notifyPreviewStep s).1.lastPreviewedId = some h.id) ∧
    (∀ s : PanelState, s.selectedHeadingId = none →
        (notifyPreviewStep s).1.lastPreviewedId = none ∧ (notifyPreviewStep s).2 = none) ∧
    ((openStep ⟨[], [], "", none, none⟩
        [⟨"heading-0", "A", 1, 0, 3, 0⟩, ⟨"heading-4", "B", 1, 4, 8, 1⟩]
        (some "heading-0")).2 = some ⟨"heading-0", "A", 1, 0, 3, 0⟩ ∧
      (updateStep (openStep ⟨[], [], "", none, none⟩
          [⟨"heading-0", "A", 1, 0, 3, 0⟩, ⟨"heading-4", "B", 1, 4, 8, 1⟩]
          (some "heading-0")).1
        [⟨"heading-0", "A", 1, 0, 3, 0⟩, ⟨"heading-4", "B", 1, 4, 8, 1⟩]
        (some "heading-0") true).2 = none) := by
  refine ⟨?_, ?_, by decide⟩
  · intro s h hev
    rcases hq : notifyPreviewStep s with ⟨st, ev⟩
    rw [hq] at hev
    replace hev : ev = some h := hev
    subst hev
    unfold notifyPreviewStep at hq
    split at hq
    · split at hq
      · rw [Prod.mk.injEq] at hq
        cases hq.2
      · rename_i hnelast
        split at hq
        · rw [Prod.mk.injEq] at hq
          cases hq.2
        · rename_i heading hfind
          rw [Prod.mk.injEq] at hq
          obtain ⟨hst, hev2⟩ := hq
          injection hev2 with hev2
          have hp0 := List.find?_some
            (p := fun x : HeadingItem => jsStrEqOpt x.id s.selectedHeadingId) hfind
          have hp : jsStrEqOpt heading.id s.selectedHeadingId = true := hp0
          have hsel : s.selectedHeadingId = some heading.id := jsStrEqOpt_eq_true hp
          rw [← hev2]
          refine ⟨hsel, ?_, ?_⟩
          · intro hc
            rw [hsel, hc] at hnelast
            exact hnelast rfl
          · rw [← hst]
    · rw [Prod.mk.injEq] at hq
      cases hq.2
  · intro s hsel
    constructor <;> simp [notifyPreviewStep, hsel, strTruthy]

/-- Witness for C5's dedup rule: a state with no selection clears the marker
without firing. -/
theorem notifyPreview_dedup_witness :
    (notifyPreviewStep ⟨[], [], "", none, some "heading-0"⟩).1.lastPreviewedId = none ∧
    (notifyPreviewStep ⟨[], [], "", none, some "heading-0"⟩).2 = none :=
  notifyPreview_dedup.2.1 ⟨[], [], "", none, some "heading-0"⟩ rfl

theorem applyScrollTop_bounds (g : ScrollGeom) (t : Int) :
    0 ≤ applyScrollTop g t ∧
    applyScrollTop g t ≤ max 0 (g.scrollHeight - g.clientHeight) := by
  unfold applyScrollTop
  exact ⟨le_max_left 0 _, max_le (le_max_left 0 _) (min_le_right _ _)⟩

theorem restoreScroll_bounds (g : ScrollGeom) (targetTop fallbackTop : Option Int)
    (r : Int) (hr : restoreScroll g targetTop fallbackTop = some r) :
    0 ≤ r ∧ r ≤ max 0 (g.scrollHeight - g.clientHeight) := by
  cases targetTop with
  | some t =>
    injection hr with hr
    rw [← hr]
    exact applyScrollTop_bounds g t
  | none =>
    cases fallbackTop with
    | some f =>
      injection hr with hr
      rw [← hr]
      exact applyScrollTop_bounds g f
    | none => cases hr

/-- C8: any scroll top the cancel-path restore applies lies in
`[0, max 0 (scrollHeight - clientHeight)]`, and when the measurement read
yields nothing the raw snapshot scroll offset is applied instead, clamped to
the same range. -/
theorem restoreEditorViewport_clamped (snapshot : Option ViewportSnapshot)
    (liveFrom liveTo : Int) (coords : Option BlockCoords) (g : ScrollGeom)
    (fallbackScrollTop : Option Int) :
    (∀ r, restoreEditorViewport snapshot liveFrom liveTo coords g fallbackScrollTop = some r →
        0 ≤ r ∧ r ≤ max 0 (g.scrollHeight - g.clientHeight)) ∧
    (∀ snap f, snapshot = some snap →
        restoreReadTarget snap liveFrom liveTo coords g = none →
        fallbackScrollTop = some f →
        restoreEditorViewport snapshot liveFrom liveTo coords g fallbackScrollTop =
          some (applyScrollTop g f)) := by
  constructor
  · intro r hr
    unfold restoreEditorViewport at hr
    split at hr
    · exact restoreScroll_bounds g _ _ r hr
    · cases fallbackScrollTop with
      | some f => exact restoreScroll_bounds g none (some f) r hr
      | none => cases hr
  · rintro snap f rfl hnone rfl
    show restoreScroll g (restoreReadTarget snap liveFrom liveTo coords g) (some f)
      = some (applyScrollTop g f)
    rw [hnone]
    rfl

/-- Witness for C8: an unmeasurable snapshot geometry falls back to the raw
scroll offset, clamped. -/
theorem restoreEditorViewport_clamped_witness :
    restoreEditorViewport (some ⟨10, 10, 40, 55⟩) 10 10 none ⟨1000, 300, 120⟩ (some 5000)
      = some (applyScrollTop ⟨1000, 300, 120⟩ 5000) :=
  (restoreEditorViewport_clamped (some ⟨10, 10, 40, 55⟩) 10 10 none ⟨1000, 300, 120⟩
    (some 5000)).2 ⟨10, 10, 40, 55⟩ 5000 rfl (by decide) rfl

theorem update_core (s0 : PanelState) (ft pid : String)
    (hsel : s0.selectedHeadingId = some pid) (hpid : pid ≠ "")
    (hocc : pid ∈ ((updatePreviewMarkerStep (applyFilterStep s0 ft)).filtered.map
        (fun x => x.id))) :
    (updatePreviewMarkerStep (applyFilterStep s0 ft)).selectedHeadingId = some pid := by
  have hchar := applyFilterStep_characterization s0 ft
    (by intro q hq; rw [hsel] at hq; injection hq with hq; rw [← hq]; exact hpid)
  rw [updatePreviewMarkerStep_filtered] at hocc
  rw [updatePreviewMarkerStep_selected]
  rw [hchar.1] at hocc
  rw [hchar.2, hsel]
  exact specReselect_mem hocc

/-- C10: `update` with a null `selectedId` keeps the previously selected id
(null coalescing) before the reselection policy runs; in particular, when the
previously selected entry still occurs in the new filtered result, the
selection is unchanged by the update.  (Heading ids in this system are never
the empty string, which JS would treat as falsy.) -/
theorem update_none_keeps_selection (s : PanelState) (headings : List HeadingItem)
    (preserveFilter : Bool) (pid : String)
    (hsel : s.selectedHeadingId = some pid) (hpid : pid ≠ "")
    (hocc : pid ∈ ((updateStep s headings none preserveFilter).1.filtered.map
        (fun x => x.id))) :
    (updateStep s headings none preserveFilter).1.selectedHeadingId = some pid := by
  cases preserveFilter with
  | true => exact update_core { s with headings := headings } s.inputValue pid hsel hpid hocc
  | false =>
    exact update_core { s with inputValue := "", headings := headings } "" pid hsel hpid hocc

/-- Witness for C10: an update with a null selected id keeps the surviving
previous selection. -/
theorem update_none_keeps_selection_witness :
    (updateStep ⟨[⟨"heading-0", "A", 1, 0, 3, 0⟩, ⟨"heading-4", "B", 1, 4, 8, 1⟩],
        [⟨"heading-0", "A", 1, 0, 3, 0⟩, ⟨"heading-4", "B", 1, 4, 8, 1⟩],
        "", some "heading-4", none⟩
      [⟨"heading-0", "A", 1, 0, 3, 0⟩, ⟨"heading-4", "B", 1, 4, 8, 1⟩]
      none true).1.selectedHeadingId = some "heading-4" :=
  update_none_keeps_selection ⟨[⟨"heading-0", "A", 1, 0, 3, 0⟩, ⟨"heading-4", "B", 1, 4, 8, 1⟩],
      [⟨"heading-0", "A", 1, 0, 3, 0⟩, ⟨"heading-4", "B", 1, 4, 8, 1⟩],
      "", some "heading-4", none⟩
    [⟨"heading-0", "A", 1, 0, 3, 0⟩, ⟨"heading-4", "B", 1, 4, 8, 1⟩]
    true "heading-4" rfl (by decide) (by decide)

/-- On a list sorted by ascending `from`, the break-early scan of
`findActiveHeadingId` computes the last entry with `from ≤ position` (falling
back to the accumulator). -/
theorem faScan_sorted (position : Nat) :
    ∀ (l : List HeadingItem) (cand : Option HeadingItem),
      List.Pairwise (fun a b => a.fromPos ≤ b.fromPos) l →
      faScan position l cand =
        ((l.filter (fun h => h.fromPos ≤ position)).getLast?).or cand := by
  intro l
  induction l with
  | nil => intro cand hp; simp [faScan]
  | cons f fs ih =>
    intro cand hp
    rw [List.pairwise_cons] at hp
    obtain ⟨hall, hrest⟩ := hp
    by_cases hle : f.fromPos ≤ position
    · rw [show faScan position (f :: fs) cand = faScan position fs (some f) from by
          simp only [faScan]; rw [if_pos hle]]
      rw [ih (some f) hrest,
          List.filter_cons_of_pos (by simpa using hle)]
      cases hfl : fs.filter (fun h => h.fromPos ≤ position) with
      | nil => simp
      | cons v vs =>
        rw [List.getLast?_cons_cons]
        have hsome : ((v :: vs).getLast?).isSome := by simp
        obtain ⟨x, hx⟩ := Option.isSome_iff_exists.mp hsome
        rw [hx]
        rfl
    · rw [show faScan position (f :: fs) cand = cand from by
          simp only [faScan]; rw [if_neg hle]]
      have hnil : (f :: fs).filter (fun h => h.fromPos ≤ position) = [] := by
        rw [List.filter_eq_nil_iff]
        intro a ha
        simp only [decide_eq_true_eq]
        rcases List.mem_cons.mp ha with rfl | hafs
        · exact hle
        · intro hc
          exact hle (le_trans (hall a hafs) hc)
      rw [hnil]
      rfl

/-- C9 counterexample: on a heading list that is not sorted by `from`, the
break-early loop returns the last qualifying entry *before the first
excursion*, not the last qualifying entry of the list. -/
theorem findActiveHeadingId_counterexample :
    findActiveHeadingId
        [⟨"a", "x", 1, 5, 6, 0⟩, ⟨"b", "y", 1, 10, 11, 0⟩, ⟨"c", "z", 1, 3, 4, 0⟩] 6
      = some "a" ∧
    (([⟨"a", "x", 1, 5, 6, 0⟩, ⟨"b", "y", 1, 10, 11, 0⟩, ⟨"c", "z", 1, 3, 4, 0⟩] :
        List HeadingItem).filter (fun h => h.fromPos ≤ 6)).getLast?.map (fun h => h.id)
      = some "c" := by decide

/-- C9 amended: for every heading list *sorted by ascending `from`* (as
`extractHeadings` produces) and every position, `findActiveHeadingId` returns
none exactly when the list is empty; otherwise the id of the last entry with
`from ≤ position` when one exists, else the id of the first entry. -/
theorem findActiveHeadingId_spec (headings : List HeadingItem) (position : Nat)
    (hsorted : List.Pairwise (fun a b => a.fromPos ≤ b.fromPos) headings) :
    (findActiveHeadingId headings position = none ↔ headings = []) ∧
    (∀ h, (headings.filter (fun x => x.fromPos ≤ position)).getLast? = some h →
        findActiveHeadingId headings position = some h.id) ∧
    (∀ first rest, headings = first :: rest →
        headings.filter (fun x => x.fromPos ≤ position) = [] →
        findActiveHeadingId headings position = some first.id) := by
  refine ⟨?_, ?_, ?_⟩
  · cases headings with
    | nil => simp [findActiveHeadingId]
    | cons f fs =>
      simp only [findActiveHeadingId]
      constructor
      · intro hc
        split at hc <;> cases hc
      · intro hc
        cases hc
  · intro h hlast
    cases headings with
    | nil => simp at hlast
    | cons f fs =>
      have hscan := faScan_sorted position (f :: fs) none hsorted
      rw [hlast] at hscan
      simp only [findActiveHeadingId]
      rw [hscan]
      rfl
  · rintro first rest rfl hfil
    have hscan := faScan_sorted position (first :: rest) none hsorted
    rw [hfil] at hscan
    simp only [findActiveHeadingId]
    rw [hscan]
    rfl

/-- Witness for C9's amended claim on a sorted two-entry list. -/
theorem findActiveHeadingId_spec_witness :
    findActiveHeadingId
        [⟨"heading-0", "A", 1, 0, 3, 0⟩, ⟨"heading-4", "B", 1, 4, 8, 1⟩] 6
      = some "heading-4" :=
  (findActiveHeadingId_spec
      [⟨"heading-0", "A", 1, 0, 3, 0⟩, ⟨"heading-4", "B", 1, 4, 8, 1⟩] 6
      (by decide)).2.1 ⟨"heading-4", "B", 1, 4, 8, 1⟩ (by decide)

/-! ## The parser contract holds for well-formed trees -/

theorem flattenForest_mem {n : PNode} :
    ∀ {cs : List PTree}, n ∈ flattenForest cs ↔ ∃ c ∈ cs, n ∈ c.flatten := by
  intro cs
  induction cs with
  | nil => simp [flattenForest]
  | cons c cs ih =>
    rw [flattenForest, List.mem_append, ih]
    constructor
    · rintro (hc | ⟨c2, hc2, hn2⟩)
      · exact ⟨c, List.mem_cons_self c cs, hc⟩
      · exact ⟨c2, List.mem_cons_of_mem c hc2, hn2⟩
    · rintro ⟨c2, hc2, hn2⟩
      rcases List.mem_cons.mp hc2 with rfl | hc2
      · exact Or.inl hn2
      · exact Or.inr ⟨c2, hc2, hn2⟩

theorem PTree.flatten_mem_bounds {t : PTree} (hwf : t.Wf) :
    ∀ n ∈ t.flatten, t.root.fromPos ≤ n.fromPos ∧ n.toPos ≤ t.root.toPos ∧
      n.fromPos ≤ n.toPos := by
  induction hwf with
  | node hspan hbound hsib hch ih =>
    rename_i d cs
    intro n hn
    rw [PTree.flatten, List.mem_cons] at hn
    rcases hn with rfl | hn
    · exact ⟨le_refl _, le_refl _, hspan⟩
    · rw [flattenForest_mem] at hn
      obtain ⟨c, hc, hnc⟩ := hn
      obtain ⟨h1, h2, h3⟩ := ih c hc n hnc
      obtain ⟨hb1, hb2⟩ := hbound c hc
      exact ⟨le_trans hb1 h1, le_trans h2 hb2, h3⟩

theorem flattenForest_pairwise {cs : List PTree}
    (hwfs : ∀ c ∈ cs, PTree.Wf c)
    (hpw : ∀ c ∈ cs, List.Pairwise containsOrPrecedes c.flatten)
    (hsib : List.Pairwise
      (fun a b => (PTree.root a).toPos ≤ (PTree.root b).fromPos) cs) :
    List.Pairwise containsOrPrecedes (flattenForest cs) := by
  induction cs with
  | nil => exact List.Pairwise.nil
  | cons c cs ih =>
    rw [List.pairwise_cons] at hsib
    rw [flattenForest, List.pairwise_append]
    refine ⟨hpw c (List.mem_cons_self c cs), ?_, ?_⟩
    · exact ih (fun x hx => hwfs x (List.mem_cons_of_mem c hx))
        (fun x hx => hpw x (List.mem_cons_of_mem c hx)) hsib.2
    · intro x hx y hy
      rw [flattenForest_mem] at hy
      obtain ⟨c2, hc2, hyc2⟩ := hy
      obtain ⟨-, hx2, -⟩ := PTree.flatten_mem_bounds
        (hwfs c (List.mem_cons_self c cs)) x hx
      obtain ⟨hy1, -, -⟩ := PTree.flatten_mem_bounds
        (hwfs c2 (List.mem_cons_of_mem c hc2)) y hyc2
      exact Or.inr (le_trans hx2 (le_trans (hsib.1 c2 hc2) hy1))

/-- The preorder enumeration of a well-formed lezer tree satisfies C1's
geometric hypothesis: an earlier node either contains a later one or ends
before it starts. -/
theorem PTree.flatten_containsOrPrecedes {t : PTree} (hwf : t.Wf) :
    List.Pairwise containsOrPrecedes t.flatten := by
  induction hwf with
  | node hspan hbound hsib hch ih =>
    rename_i d cs
    rw [PTree.flatten, List.pairwise_cons]
    constructor
    · intro n hn
      rw [flattenForest_mem] at hn
      obtain ⟨c, hc, hnc⟩ := hn
      obtain ⟨h1, h2, -⟩ := PTree.flatten_mem_bounds (hch c hc) n hnc
      obtain ⟨hb1, hb2⟩ := hbound c hc
      exact Or.inl ⟨le_trans hb1 h1, le_trans h2 hb2⟩
    · exact flattenForest_pairwise hch ih hsib
